import Mathlib

/-!
Shallow embedding of `src/BlackScholes.py` (class `Black_Scholes`) and proofs
of the specification claims about it.

Modelling conventions:
* Python floats are modelled as real numbers `ℝ`.
* A method of the class becomes a function taking the object state
  (`Black_Scholes`) and returning, on success, the method's value paired with
  the post-call object state; a Python runtime exception becomes
  `Except.error`.  The spec's error taxonomy names the exceptions:
  `ConfigurationError` stands for the `UnboundLocalError` raised when the
  dividend flag is neither of the two recognized markers, `DomainError` for
  the `ZeroDivisionError` / `ValueError` raised by `/`, `math.log` and
  `math.sqrt` on inputs outside their domains.
* `scipy.stats.norm.cdf` / `norm.pdf` (the external standard-normal provider)
  are modelled by `normalCDF` / `normalPDF` below.
-/

open MeasureTheory Set Real

noncomputable section

namespace BlackScholesModel

/-- Spec error taxonomy: `ConfigurationError` for an unrecognized dividend
flag, `DomainError` for arguments outside the domain of `log`, `sqrt` or
division. -/
inductive BSError where
  | ConfigurationError : BSError
  | DomainError : BSError
deriving DecidableEq

/-- Object state of the Python class `Black_Scholes`: the seven attributes
set by `__init__` (`self.K`, `self.T`, `self.So`, `self.r`, `self.q`,
`self.mu`, `self.div`).  `T` is already in years; `div` is the raw string
marker for dividend handling. -/
structure Black_Scholes where
  K : ℝ
  T : ℝ
  So : ℝ
  r : ℝ
  q : ℝ
  mu : ℝ
  div : String
deriving DecidableEq

namespace Black_Scholes

/-- Constructor `__init__(self, K, T_trm, So, r, q, mu, div)`: stores the
parameters, converting the term from months to years (`self.T = T_trm / 12`). -/
def init (K T_trm So r q mu : ℝ) (div : String) : Black_Scholes :=
  ⟨K, T_trm / 12, So, r, q, mu, div⟩

/-- Method `carry_benefits(self)`: branches on `self.div`.  For the marker
"yes" it returns `[q, exp(-q*T)]`, for "no" it returns `[0, 1]`; for any
other value both local variables stay unbound and the `return` statement
raises (modelled as `ConfigurationError`).  The method assigns no attribute,
so the post-state is the receiver. -/
def carry_benefits (p : Black_Scholes) :
    Except BSError ((ℝ × ℝ) × Black_Scholes) :=
  if p.div = "yes" then .ok ((p.q, Real.exp (-p.q * p.T)), p)
  else if p.div = "no" then .ok ((0, 1), p)
  else .error .ConfigurationError

open Classical in
/-- Method `d1_d2(self)`: calls `carry_benefits`, then computes
`a = log(So / K)`, `b = (r - carry + mu^2/2) * T`, `c = mu * sqrt(T)`,
`d1 = (a + b)/c`, `d2 = d1 - c`.  The guards mirror, in evaluation order,
the Python exceptions: `So / K` with `K = 0` (`ZeroDivisionError`),
`math.log` on a non-positive ratio (`ValueError`), `math.sqrt` on a negative
`T` (`ValueError`), and the division by `c = 0` (`ZeroDivisionError`); all
are modelled as `DomainError`. -/
def d1_d2 (p : Black_Scholes) :
    Except BSError ((ℝ × ℝ) × Black_Scholes) := do
  let (_carry, p) ← carry_benefits p
  if p.K = 0 then .error .DomainError
  else if p.So / p.K ≤ 0 then .error .DomainError
  else
    let a := Real.log (p.So / p.K)
    let b := (p.r - _carry.1 + p.mu ^ 2 / 2) * p.T
    if p.T < 0 then .error .DomainError
    else
      let c := p.mu * Real.sqrt p.T
      if c = 0 then .error .DomainError
      else
        let d1 := (a + b) / c
        let d2 := d1 - c
        .ok ((d1, d2), p)

/-- Standard normal probability density function `φ`, modelling
`scipy.stats.norm.pdf`. -/
def normalPDF (x : ℝ) : ℝ :=
  (Real.sqrt (2 * π))⁻¹ * Real.exp (-x ^ 2 / 2)

/-- Standard normal cumulative distribution function `Φ`, modelling
`scipy.stats.norm.cdf`. -/
def normalCDF (x : ℝ) : ℝ :=
  ∫ t in Iic x, normalPDF t

/-- Method `call_put_options(self)`: recomputes carry terms and `d1`, `d2`,
then returns `[call, put]` with
`call = So * exp_carry * Φ(d1) - K * exp(-r*T) * Φ(d2)` and
`put = K * exp(-r*T) * Φ(-d2) - So * exp_carry * Φ(-d1)`.
No attribute is assigned. -/
def call_put_options (p : Black_Scholes) :
    Except BSError ((ℝ × ℝ) × Black_Scholes) := do
  let (carry, p) ← carry_benefits p
  let (d, p) ← d1_d2 p
  let Nd1_pos := normalCDF d.1
  let Nd2_pos := normalCDF d.2
  let Nd1_neg := normalCDF (-d.1)
  let Nd2_neg := normalCDF (-d.2)
  let a := p.So * carry.2 * Nd1_pos
  let b := p.K * Real.exp (-p.r * p.T) * Nd2_pos
  let call := a - b
  let c := p.K * Real.exp (-p.r * p.T) * Nd2_neg
  let d2n := p.So * carry.2 * Nd1_neg
  let put := c - d2n
  .ok ((call, put), p)

/-- Method `equity_forward(self)`: with `FP = K` and `St = So`, returns
`NPV = a - b` where `a = St / exp(q*T)` if the flag is "yes", `a = St` if it
is "no" (in both cases `b = FP / exp(r*T)`); any other flag leaves `a`
unbound and the statement `NPV = a - b` raises (modelled as
`ConfigurationError`). -/
def equity_forward (p : Black_Scholes) :
    Except BSError (ℝ × Black_Scholes) :=
  let FP := p.K
  let St := p.So
  if p.div = "yes" then
    .ok (St / Real.exp (p.q * p.T) - FP / Real.exp (p.r * p.T), p)
  else if p.div = "no" then
    .ok (St - FP / Real.exp (p.r * p.T), p)
  else .error .ConfigurationError

/-- Method `delta(self)`: recomputes `d1`, `d2` and returns
`[exp(-q*T) * Φ(d1), -exp(-q*T) * Φ(-d1)]`; the raw attribute `q` is used,
not the carry-adjusted rate. -/
def delta (p : Black_Scholes) :
    Except BSError ((ℝ × ℝ) × Black_Scholes) := do
  let (d, p) ← d1_d2 p
  let Nd1_pos := normalCDF d.1
  let Nd1_neg := normalCDF (-d.1)
  let delta_call := Real.exp (-p.q * p.T) * Nd1_pos
  let delta_put := -Real.exp (-p.q * p.T) * Nd1_neg
  .ok ((delta_call, delta_put), p)

/-- Method `gamma(self)`: recomputes `d1`, `d2` and returns
`(exp(-q*T) / (So * mu * sqrt(T))) * φ(d1)`. -/
def gamma (p : Black_Scholes) :
    Except BSError (ℝ × Black_Scholes) := do
  let (d, p) ← d1_d2 p
  let nd1 := normalPDF d.1
  let a := Real.exp (-p.q * p.T)
  let b := p.So * p.mu * Real.sqrt p.T
  .ok ((a / b) * nd1, p)

/-- The carry rate selected by `carry_benefits` on a recognized flag
(`carry[0]` in the source). -/
def carryRate (p : Black_Scholes) : ℝ :=
  if p.div = "yes" then p.q else 0

/-- The discount factor selected by `carry_benefits` on a recognized flag
(`carry[1]`, called `exp_carry` in the source). -/
def discountFactor (p : Black_Scholes) : ℝ :=
  if p.div = "yes" then Real.exp (-p.q * p.T) else 1

/-- The `d1` value computed by `d1_d2` on valid inputs. -/
def d1val (p : Black_Scholes) : ℝ :=
  (Real.log (p.So / p.K) + (p.r - carryRate p + p.mu ^ 2 / 2) * p.T) /
    (p.mu * Real.sqrt p.T)

/-- The `d2` value computed by `d1_d2` on valid inputs. -/
def d2val (p : Black_Scholes) : ℝ :=
  d1val p - p.mu * Real.sqrt p.T

/-- `d1` as a function of the volatility `m` alone, with
`A = log(So/K) + (r − carry)·T` and `s = sqrt T` held fixed:
`d1 = A/(m·s) + m·s/2`. -/
def dPlus (A s m : ℝ) : ℝ := A / (m * s) + m * s / 2

/-- `d2` as a function of the volatility `m` alone:
`d2 = A/(m·s) − m·s/2`. -/
def dMinus (A s m : ℝ) : ℝ := A / (m * s) - m * s / 2

/-- The call price as a function of the volatility `m` alone, with
`P = So·discountFactor` and `Q = K·exp(−r·T)` held fixed. -/
def callFormula (P Q A s m : ℝ) : ℝ :=
  P * normalCDF (dPlus A s m) - Q * normalCDF (dMinus A s m)

/-- The put price as a function of the volatility `m` alone. -/
def putFormula (P Q A s m : ℝ) : ℝ :=
  Q * normalCDF (-dMinus A s m) - P * normalCDF (-dPlus A s m)

/-! Facts about the standard normal density and distribution functions. -/

lemma normalPDF_pos (x : ℝ) : 0 < normalPDF x := by
  unfold normalPDF
  positivity

lemma normalPDF_even (x : ℝ) : normalPDF (-x) = normalPDF x := by
  simp [normalPDF]

lemma normalPDF_eq_gaussianPDFReal :
    normalPDF = ProbabilityTheory.gaussianPDFReal 0 1 := by
  funext x
  simp [normalPDF, ProbabilityTheory.gaussianPDFReal]

lemma continuous_normalPDF : Continuous normalPDF := by
  unfold normalPDF
  fun_prop

lemma integrable_normalPDF : Integrable normalPDF := by
  rw [normalPDF_eq_gaussianPDFReal]
  exact ProbabilityTheory.integrable_gaussianPDFReal 0 1

lemma integral_normalPDF : ∫ x, normalPDF x = 1 := by
  simp only [normalPDF_eq_gaussianPDFReal]
  exact ProbabilityTheory.integral_gaussianPDFReal_eq_one 0 one_ne_zero

lemma normalCDF_neg_eq_integral_Ioi (x : ℝ) :
    normalCDF (-x) = ∫ t in Ioi x, normalPDF t := by
  have h := integral_comp_neg_Iic (-x) normalPDF
  simp only [normalPDF_even, neg_neg] at h
  rw [normalCDF]
  exact h

lemma normalCDF_add_neg (x : ℝ) : normalCDF x + normalCDF (-x) = 1 := by
  rw [normalCDF, normalCDF_neg_eq_integral_Ioi]
  rw [← setIntegral_union (Set.Iic_disjoint_Ioi le_rfl) measurableSet_Ioi
    integrable_normalPDF.integrableOn integrable_normalPDF.integrableOn]
  rw [Set.Iic_union_Ioi, setIntegral_univ]
  exact integral_normalPDF

lemma normalCDF_nonneg (x : ℝ) : 0 ≤ normalCDF x :=
  setIntegral_nonneg measurableSet_Iic fun t _ => (normalPDF_pos t).le

lemma normalCDF_le_one (x : ℝ) : normalCDF x ≤ 1 := by
  have h := normalCDF_add_neg x
  have h2 := normalCDF_nonneg (-x)
  linarith

lemma normalCDF_eq_const_add_intervalIntegral (x : ℝ) :
    normalCDF x = normalCDF 0 + ∫ t in (0:ℝ)..x, normalPDF t := by
  have h0 : IntegrableOn normalPDF (Iic (0:ℝ)) volume :=
    integrable_normalPDF.integrableOn
  have hx : IntegrableOn normalPDF (Iic x) volume :=
    integrable_normalPDF.integrableOn
  have h := intervalIntegral.integral_Iic_sub_Iic h0 hx
  rw [normalCDF, normalCDF]
  linarith

lemma hasDerivAt_normalCDF (x : ℝ) :
    HasDerivAt normalCDF (normalPDF x) x := by
  have hF : HasDerivAt (fun u => ∫ t in (0:ℝ)..u, normalPDF t)
      (normalPDF x) x :=
    intervalIntegral.integral_hasDerivAt_right
      (integrable_normalPDF.intervalIntegrable)
      (continuous_normalPDF.stronglyMeasurableAtFilter _ _)
      continuous_normalPDF.continuousAt
  have heq : normalCDF = fun u => normalCDF 0 + ∫ t in (0:ℝ)..u, normalPDF t :=
    funext normalCDF_eq_const_add_intervalIntegral
  rw [heq]
  exact hF.const_add (normalCDF 0)

lemma strictMono_normalCDF : StrictMono normalCDF :=
  strictMono_of_deriv_pos fun x => by
    rw [(hasDerivAt_normalCDF x).deriv]
    exact normalPDF_pos x

/-! Evaluation lemmas for the methods. -/

lemma except_bind_ok {ε α β : Type} (a : α) (f : α → Except ε β) :
    (Except.ok a >>= f) = f a := rfl

lemma except_bind_error {ε α β : Type} (e : ε) (f : α → Except ε β) :
    ((Except.error e : Except ε α) >>= f) = Except.error e := rfl

lemma except_map_ok {ε α β : Type} (f : α → β) (a : α) :
    Except.map f (Except.ok a : Except ε α) = .ok (f a) := rfl

lemma except_map_error {ε α β : Type} (f : α → β) (e : ε) :
    Except.map f (Except.error e : Except ε α) = .error e := rfl

lemma carry_benefits_eval (p : Black_Scholes)
    (hdiv : p.div = "yes" ∨ p.div = "no") :
    carry_benefits p = .ok ((carryRate p, discountFactor p), p) := by
  rcases hdiv with h | h <;>
    simp [carry_benefits, carryRate, discountFactor, h]

lemma d1_d2_eval (p : Black_Scholes) (hdiv : p.div = "yes" ∨ p.div = "no")
    (hK : 0 < p.K) (hSo : 0 < p.So) (hT : 0 < p.T) (hmu : p.mu ≠ 0) :
    d1_d2 p = .ok ((d1val p, d2val p), p) := by
  have hc : p.mu * Real.sqrt p.T ≠ 0 :=
    mul_ne_zero hmu (ne_of_gt (Real.sqrt_pos.2 hT))
  have hratio : ¬p.So / p.K ≤ 0 := not_le.mpr (div_pos hSo hK)
  have hT' : ¬p.T < 0 := not_lt.mpr hT.le
  simp [d1_d2, carry_benefits_eval p hdiv, except_bind_ok, hK.ne', hratio,
    hT', hc, hmu, (Real.sqrt_pos.2 hT).ne', d1val, d2val]

lemma call_put_options_eval (p : Black_Scholes)
    (hdiv : p.div = "yes" ∨ p.div = "no")
    (hK : 0 < p.K) (hSo : 0 < p.So) (hT : 0 < p.T) (hmu : p.mu ≠ 0) :
    call_put_options p = .ok
      ((p.So * discountFactor p * normalCDF (d1val p)
          - p.K * Real.exp (-p.r * p.T) * normalCDF (d2val p),
        p.K * Real.exp (-p.r * p.T) * normalCDF (-d2val p)
          - p.So * discountFactor p * normalCDF (-d1val p)), p) := by
  simp [call_put_options, carry_benefits_eval p hdiv,
    d1_d2_eval p hdiv hK hSo hT hmu, except_bind_ok]

lemma delta_eval (p : Black_Scholes) (hdiv : p.div = "yes" ∨ p.div = "no")
    (hK : 0 < p.K) (hSo : 0 < p.So) (hT : 0 < p.T) (hmu : p.mu ≠ 0) :
    delta p = .ok
      ((Real.exp (-p.q * p.T) * normalCDF (d1val p),
        -Real.exp (-p.q * p.T) * normalCDF (-d1val p)), p) := by
  simp [delta, d1_d2_eval p hdiv hK hSo hT hmu, except_bind_ok]

lemma gamma_eval (p : Black_Scholes) (hdiv : p.div = "yes" ∨ p.div = "no")
    (hK : 0 < p.K) (hSo : 0 < p.So) (hT : 0 < p.T) (hmu : p.mu ≠ 0) :
    gamma p = .ok
      (Real.exp (-p.q * p.T) / (p.So * p.mu * Real.sqrt p.T)
        * normalPDF (d1val p), p) := by
  simp [gamma, d1_d2_eval p hdiv hK hSo hT hmu, except_bind_ok]

lemma equity_forward_eval (p : Black_Scholes)
    (hdiv : p.div = "yes" ∨ p.div = "no") :
    equity_forward p = .ok
      ((if p.div = "yes" then p.So / Real.exp (p.q * p.T) else p.So)
        - p.K / Real.exp (p.r * p.T), p) := by
  rcases hdiv with h | h <;> simp [equity_forward, h]

lemma discountFactor_eq_exp (p : Black_Scholes)
    (hdiv : p.div = "yes" ∨ p.div = "no") :
    discountFactor p = Real.exp (-carryRate p * p.T) := by
  rcases hdiv with h | h <;> simp [discountFactor, carryRate, h]

/-! State-preservation lemmas: every method leaves the object unchanged. -/

lemma carry_benefits_state (p : Black_Scholes) :
    (carry_benefits p).map Prod.snd = (carry_benefits p).map fun _ => p := by
  unfold carry_benefits
  split
  · rfl
  split
  · rfl
  · rfl

lemma carry_benefits_shape (p : Black_Scholes) :
    carry_benefits p = .error .ConfigurationError ∨
    ∃ v, carry_benefits p = .ok (v, p) := by
  by_cases h1 : p.div = "yes"
  · exact Or.inr ⟨(p.q, Real.exp (-p.q * p.T)), by simp [carry_benefits, h1]⟩
  by_cases h2 : p.div = "no"
  · exact Or.inr ⟨(0, 1), by simp [carry_benefits, h1, h2]⟩
  · exact Or.inl (by simp [carry_benefits, h1, h2])

lemma d1_d2_state (p : Black_Scholes) :
    (d1_d2 p).map Prod.snd = (d1_d2 p).map fun _ => p := by
  rcases carry_benefits_shape p with h | ⟨v, h⟩
  · simp [d1_d2, h, except_bind_error, except_map_error]
  · simp only [d1_d2, h, except_bind_ok]
    split
    · rfl
    split
    · rfl
    split
    · rfl
    split
    · rfl
    · rfl

lemma d1_d2_shape (p : Black_Scholes) :
    (∃ e, d1_d2 p = .error e) ∨ ∃ v, d1_d2 p = .ok (v, p) := by
  have h := d1_d2_state p
  cases hd : d1_d2 p with
  | error e => exact Or.inl ⟨e, rfl⟩
  | ok vs =>
    obtain ⟨v, s⟩ := vs
    rw [hd] at h
    simp only [except_map_ok, Except.ok.injEq] at h
    subst h
    exact Or.inr ⟨v, rfl⟩

lemma call_put_options_state (p : Black_Scholes) :
    (call_put_options p).map Prod.snd =
      (call_put_options p).map fun _ => p := by
  rcases carry_benefits_shape p with h | ⟨v, h⟩
  · simp [call_put_options, h, except_bind_error, except_map_error]
  · rcases d1_d2_shape p with ⟨e, hd⟩ | ⟨w, hd⟩ <;>
      simp [call_put_options, h, hd, except_bind_ok, except_bind_error,
        except_map_ok, except_map_error]

lemma equity_forward_state (p : Black_Scholes) :
    (equity_forward p).map Prod.snd = (equity_forward p).map fun _ => p := by
  unfold equity_forward
  split
  · rfl
  split
  · rfl
  · rfl

lemma delta_state (p : Black_Scholes) :
    (delta p).map Prod.snd = (delta p).map fun _ => p := by
  rcases d1_d2_shape p with ⟨e, hd⟩ | ⟨w, hd⟩ <;>
    simp [delta, hd, except_bind_ok, except_bind_error, except_map_ok,
      except_map_error]

lemma gamma_state (p : Black_Scholes) :
    (gamma p).map Prod.snd = (gamma p).map fun _ => p := by
  rcases d1_d2_shape p with ⟨e, hd⟩ | ⟨w, hd⟩ <;>
    simp [gamma, hd, except_bind_ok, except_bind_error, except_map_ok,
      except_map_error]

/-! The claim theorems. -/

/-- C1: for every parameter set with positive strike, spot, term and
volatility and a recognized dividend flag, `call_put_options` returns the
pair `(call, put)` with `call = So·df·Φ(d1) − K·exp(−r·T)·Φ(d2)` and
`put = K·exp(−r·T)·Φ(−d2) − So·df·Φ(−d1)`, where `(d1, d2)` is the pair
returned by `d1_d2` and `df` the discount factor returned by
`carry_benefits`; no clamping to zero is applied to either price. -/
theorem C1_call_put_prices (p : Black_Scholes)
    (hdiv : p.div = "yes" ∨ p.div = "no") (hK : 0 < p.K) (hSo : 0 < p.So)
    (hT : 0 < p.T) (hmu : 0 < p.mu) :
    ∃ cr df d1 d2,
      carry_benefits p = .ok ((cr, df), p) ∧
      d1_d2 p = .ok ((d1, d2), p) ∧
      call_put_options p = .ok
        ((p.So * df * normalCDF d1 - p.K * Real.exp (-p.r * p.T) * normalCDF d2,
          p.K * Real.exp (-p.r * p.T) * normalCDF (-d2)
            - p.So * df * normalCDF (-d1)), p) :=
  ⟨carryRate p, discountFactor p, d1val p, d2val p,
    carry_benefits_eval p hdiv, d1_d2_eval p hdiv hK hSo hT hmu.ne',
    call_put_options_eval p hdiv hK hSo hT hmu.ne'⟩

/-- C1 witness at the source's demo parameters (K = 4200, 3 months,
So = 4100, r = 0.01, q = 0.012, mu = 0.15, flag "yes"). -/
theorem C1_call_put_prices_witness :
    ∃ cr df d1 d2,
      carry_benefits (init 4200 3 4100 0.01 0.012 0.15 "yes") =
        .ok ((cr, df), init 4200 3 4100 0.01 0.012 0.15 "yes") ∧
      d1_d2 (init 4200 3 4100 0.01 0.012 0.15 "yes") =
        .ok ((d1, d2), init 4200 3 4100 0.01 0.012 0.15 "yes") ∧
      call_put_options (init 4200 3 4100 0.01 0.012 0.15 "yes") = .ok
        (((init 4200 3 4100 0.01 0.012 0.15 "yes").So * df * normalCDF d1
            - (init 4200 3 4100 0.01 0.012 0.15 "yes").K
              * Real.exp (-(init 4200 3 4100 0.01 0.012 0.15 "yes").r
                * (init 4200 3 4100 0.01 0.012 0.15 "yes").T) * normalCDF d2,
          (init 4200 3 4100 0.01 0.012 0.15 "yes").K
              * Real.exp (-(init 4200 3 4100 0.01 0.012 0.15 "yes").r
                * (init 4200 3 4100 0.01 0.012 0.15 "yes").T)
              * normalCDF (-d2)
            - (init 4200 3 4100 0.01 0.012 0.15 "yes").So * df
              * normalCDF (-d1)),
          init 4200 3 4100 0.01 0.012 0.15 "yes") :=
  C1_call_put_prices _ (Or.inl rfl) (by norm_num [init]) (by norm_num [init])
    (by norm_num [init]) (by norm_num [init])

/-- C2: `carry_benefits` returns `(q, exp(−q·T))` when the flag is the
recognized marker "yes", `(0, 1)` when it is the marker "no", and fails
with `ConfigurationError` for every other flag value instead of returning
a value. -/
theorem C2_carry_terms (p : Black_Scholes) :
    (p.div = "yes" →
      carry_benefits p = .ok ((p.q, Real.exp (-p.q * p.T)), p)) ∧
    (p.div = "no" → carry_benefits p = .ok ((0, 1), p)) ∧
    (p.div ≠ "yes" → p.div ≠ "no" →
      carry_benefits p = .error .ConfigurationError) := by
  refine ⟨fun h => ?_, fun h => ?_, fun h1 h2 => ?_⟩ <;>
    simp [carry_benefits, *]

/-- C2 witness: the three branches at concrete flag values. -/
theorem C2_carry_terms_witness :
    carry_benefits ⟨100, 1, 100, 0, 0.02, 0.3, "yes"⟩ =
      .ok ((0.02, Real.exp (-0.02 * 1)), ⟨100, 1, 100, 0, 0.02, 0.3, "yes"⟩) ∧
    carry_benefits ⟨100, 1, 100, 0, 0.02, 0.3, "no"⟩ =
      .ok ((0, 1), ⟨100, 1, 100, 0, 0.02, 0.3, "no"⟩) ∧
    carry_benefits ⟨100, 1, 100, 0, 0.02, 0.3, "maybe"⟩ =
      .error .ConfigurationError :=
  ⟨(C2_carry_terms _).1 rfl, (C2_carry_terms _).2.1 rfl,
    (C2_carry_terms _).2.2 (by simp) (by simp)⟩

/-- C3: on valid inputs, `d1_d2` returns
`d1 = (ln(S₀/K) + (r − carryRate + μ²/2)·T)/(μ·√T)` and `d2 = d1 − μ·√T`,
where the carry rate is the one from `carry_benefits` and `T` is the
months-to-maturity divided by 12 as stored by the constructor. -/
theorem C3_d1_d2_formulas (K T_trm So r q mu : ℝ) (div : String)
    (hdiv : div = "yes" ∨ div = "no") (hK : 0 < K) (hSo : 0 < So)
    (hT : 0 < T_trm) (hmu : 0 < mu) :
    ∃ cr df,
      carry_benefits (init K T_trm So r q mu div) =
        .ok ((cr, df), init K T_trm So r q mu div) ∧
      d1_d2 (init K T_trm So r q mu div) =
        .ok (((Real.log (So / K) + (r - cr + mu ^ 2 / 2) * (T_trm / 12)) /
              (mu * Real.sqrt (T_trm / 12)),
            (Real.log (So / K) + (r - cr + mu ^ 2 / 2) * (T_trm / 12)) /
              (mu * Real.sqrt (T_trm / 12)) - mu * Real.sqrt (T_trm / 12)),
          init K T_trm So r q mu div) := by
  have hT' : 0 < (init K T_trm So r q mu div).T := by
    show 0 < T_trm / 12
    positivity
  exact ⟨carryRate _, discountFactor _, carry_benefits_eval _ hdiv,
    d1_d2_eval _ hdiv hK hSo hT' hmu.ne'⟩

/-- C3 witness at K = 1, 12 months, So = 1, r = 0, q = 0, mu = 1, "no". -/
theorem C3_d1_d2_formulas_witness :
    ∃ cr df,
      carry_benefits (init 1 12 1 0 0 1 "no") =
        .ok ((cr, df), init 1 12 1 0 0 1 "no") ∧
      d1_d2 (init 1 12 1 0 0 1 "no") =
        .ok (((Real.log (1 / 1) + (0 - cr + 1 ^ 2 / 2) * (12 / 12)) /
              (1 * Real.sqrt (12 / 12)),
            (Real.log (1 / 1) + (0 - cr + 1 ^ 2 / 2) * (12 / 12)) /
              (1 * Real.sqrt (12 / 12)) - 1 * Real.sqrt (12 / 12)),
          init 1 12 1 0 0 1 "no") :=
  C3_d1_d2_formulas 1 12 1 0 0 1 "no" (Or.inr rfl) (by norm_num)
    (by norm_num) (by norm_num) (by norm_num)

/-- C4: put-call parity: the call and put returned by `call_put_options`
satisfy `call − put = So·discountFactor − K·exp(−r·T)` exactly, with the
discount factor returned by `carry_benefits`. -/
theorem C4_put_call_parity (p : Black_Scholes)
    (hdiv : p.div = "yes" ∨ p.div = "no") (hK : 0 < p.K) (hSo : 0 < p.So)
    (hT : 0 < p.T) (hmu : 0 < p.mu) :
    ∃ c pt df,
      carry_benefits p = .ok ((carryRate p, df), p) ∧
      call_put_options p = .ok ((c, pt), p) ∧
      c - pt = p.So * df - p.K * Real.exp (-p.r * p.T) := by
  refine ⟨_, _, discountFactor p, carry_benefits_eval p hdiv,
    call_put_options_eval p hdiv hK hSo hT hmu.ne', ?_⟩
  have h1 := normalCDF_add_neg (d1val p)
  have h2 := normalCDF_add_neg (d2val p)
  linear_combination p.So * discountFactor p * h1
    - p.K * Real.exp (-p.r * p.T) * h2

/-- C4 witness at K = 1, T = 1 year, So = 1, r = 0, q = 0, mu = 1, "no". -/
theorem C4_put_call_parity_witness :
    ∃ c pt df,
      carry_benefits ⟨1, 1, 1, 0, 0, 1, "no"⟩ =
        .ok ((carryRate ⟨1, 1, 1, 0, 0, 1, "no"⟩, df),
          ⟨1, 1, 1, 0, 0, 1, "no"⟩) ∧
      call_put_options ⟨1, 1, 1, 0, 0, 1, "no"⟩ =
        .ok ((c, pt), ⟨1, 1, 1, 0, 0, 1, "no"⟩) ∧
      c - pt = (1 : ℝ) * df - 1 * Real.exp (-(0 : ℝ) * 1) :=
  C4_put_call_parity ⟨1, 1, 1, 0, 0, 1, "no"⟩ (Or.inr rfl) (by norm_num)
    (by norm_num) (by norm_num) (by norm_num)

/-- C5: `delta` returns `(exp(−q·T)·Φ(d1), −exp(−q·T)·Φ(−d1))` with the
raw dividend yield `q` used in the exponential unconditionally — the same
formula applies whether the flag is "yes" or "no". -/
theorem C5_deltas (p : Black_Scholes)
    (hdiv : p.div = "yes" ∨ p.div = "no") (hK : 0 < p.K) (hSo : 0 < p.So)
    (hT : 0 < p.T) (hmu : 0 < p.mu) :
    ∃ d1 d2,
      d1_d2 p = .ok ((d1, d2), p) ∧
      delta p = .ok ((Real.exp (-p.q * p.T) * normalCDF d1,
        -Real.exp (-p.q * p.T) * normalCDF (-d1)), p) :=
  ⟨d1val p, d2val p, d1_d2_eval p hdiv hK hSo hT hmu.ne',
    delta_eval p hdiv hK hSo hT hmu.ne'⟩

/-- C5 witness: the same raw-q formula at a "no"-flag parameter set with a
nonzero dividend yield attribute. -/
theorem C5_deltas_witness :
    ∃ d1 d2,
      d1_d2 ⟨2, 1, 3, 0, 0.05, 1, "no"⟩ =
        .ok ((d1, d2), ⟨2, 1, 3, 0, 0.05, 1, "no"⟩) ∧
      delta ⟨2, 1, 3, 0, 0.05, 1, "no"⟩ =
        .ok ((Real.exp (-0.05 * 1) * normalCDF d1,
          -Real.exp (-0.05 * 1) * normalCDF (-d1)),
          ⟨2, 1, 3, 0, 0.05, 1, "no"⟩) :=
  C5_deltas ⟨2, 1, 3, 0, 0.05, 1, "no"⟩ (Or.inr rfl) (by norm_num)
    (by norm_num) (by norm_num) (by norm_num)

/-- C6: `equity_forward` returns `a − K/exp(r·T)` where `a = So/exp(q·T)`
when the flag is "yes" and `a = So` when it is "no"; in the latter case the
result equals `So − K·exp(−r·T)`. -/
theorem C6_equity_forward_npv (p : Black_Scholes)
    (hdiv : p.div = "yes" ∨ p.div = "no") :
    equity_forward p = .ok
      ((if p.div = "yes" then p.So / Real.exp (p.q * p.T) else p.So)
        - p.K / Real.exp (p.r * p.T), p) ∧
    (p.div = "no" →
      equity_forward p = .ok (p.So - p.K * Real.exp (-p.r * p.T), p)) := by
  refine ⟨equity_forward_eval p hdiv, fun h => ?_⟩
  rw [equity_forward_eval p hdiv, h]
  simp [Real.exp_neg, div_eq_mul_inv]

/-- C6 witness: forward value at a "no"-flag and at a "yes"-flag instance. -/
theorem C6_equity_forward_npv_witness :
    equity_forward ⟨2, 1, 3, 0.5, 0.25, 1, "yes"⟩ = .ok
      ((3 : ℝ) / Real.exp (0.25 * 1) - 2 / Real.exp (0.5 * 1),
        ⟨2, 1, 3, 0.5, 0.25, 1, "yes"⟩) ∧
    equity_forward ⟨2, 1, 3, 0.5, 0.25, 1, "no"⟩ = .ok
      ((3 : ℝ) - 2 * Real.exp (-0.5 * 1), ⟨2, 1, 3, 0.5, 0.25, 1, "no"⟩) := by
  constructor
  · have h := (C6_equity_forward_npv ⟨2, 1, 3, 0.5, 0.25, 1, "yes"⟩
      (Or.inl rfl)).1
    simpa using h
  · exact (C6_equity_forward_npv ⟨2, 1, 3, 0.5, 0.25, 1, "no"⟩
      (Or.inr rfl)).2 rfl

/-- C7 counterexample: with K = 1, T = 1 year, So = 1, r = 0, q = 0,
volatility mu = −1 (so μ ≤ 0) and flag "no", `d1_d2` does not fail: it
returns the pair `(−1/2, 1/2)`.  This refutes the claim that every μ ≤ 0
makes `d1_d2` fail with `DomainError`. -/
theorem C7_counterexample :
    d1_d2 ⟨1, 1, 1, 0, 0, -1, "no"⟩ =
      .ok ((-(1 / 2 : ℝ), (1 / 2 : ℝ)), ⟨1, 1, 1, 0, 0, -1, "no"⟩) := by
  norm_num [d1_d2, carry_benefits, except_bind_ok, Real.sqrt_one,
    Real.log_one]

/-- C7 amended: with a recognized flag, `d1_d2` fails with `DomainError`
when `K = 0`, `So/K ≤ 0`, `T ≤ 0` or `μ = 0` — this covers the headline
cases `K = 0` and `S₀ = 0` — and then `call_put_options`, `delta` and
`gamma` fail the same way, producing no partial output.  (A strictly
negative `μ` alone does not cause a failure, see the counterexample.) -/
theorem C7_amended_domain_errors (p : Black_Scholes)
    (hdiv : p.div = "yes" ∨ p.div = "no")
    (h : p.K = 0 ∨ p.So / p.K ≤ 0 ∨ p.T ≤ 0 ∨ p.mu = 0) :
    d1_d2 p = .error .DomainError ∧
    call_put_options p = .error .DomainError ∧
    delta p = .error .DomainError ∧
    gamma p = .error .DomainError := by
  have hc := carry_benefits_eval p hdiv
  have hd : d1_d2 p = .error .DomainError := by
    by_cases h1 : p.K = 0
    · simp [d1_d2, hc, except_bind_ok, h1]
    by_cases h2 : p.So / p.K ≤ 0
    · simp [d1_d2, hc, except_bind_ok, h1, h2]
    by_cases h3 : p.T < 0
    · simp [d1_d2, hc, except_bind_ok, h1, h2, h3]
    have h4 : p.mu * Real.sqrt p.T = 0 := by
      rcases h with h | h | h | h
      · exact absurd h h1
      · exact absurd h h2
      · have hT0 : p.T = 0 := le_antisymm h (not_lt.mp h3)
        rw [hT0, Real.sqrt_zero, mul_zero]
      · rw [h, zero_mul]
    rcases mul_eq_zero.mp h4 with h5 | h5 <;>
      simp [d1_d2, hc, except_bind_ok, h1, h2, h3, h5]
  refine ⟨hd, ?_, ?_, ?_⟩
  · simp [call_put_options, hc, hd, except_bind_ok, except_bind_error]
  · simp [delta, hd, except_bind_error]
  · simp [gamma, hd, except_bind_error]

/-- C7 amended witness: at K = 0 every output operation depending on
`d1_d2` fails with `DomainError`. -/
theorem C7_amended_domain_errors_witness :
    d1_d2 ⟨0, 1, 1, 0, 0, 1, "no"⟩ = .error .DomainError ∧
    call_put_options ⟨0, 1, 1, 0, 0, 1, "no"⟩ = .error .DomainError ∧
    delta ⟨0, 1, 1, 0, 0, 1, "no"⟩ = .error .DomainError ∧
    gamma ⟨0, 1, 1, 0, 0, 1, "no"⟩ = .error .DomainError :=
  C7_amended_domain_errors ⟨0, 1, 1, 0, 0, 1, "no"⟩ (Or.inr rfl)
    (Or.inl rfl)

/-- C9: no output operation mutates the stored parameters: for each of the
six methods, whenever the method returns a value, the post-call object
state it returns equals the receiver (and on error no state is produced).
The object carries no derived fields, so every call recomputes carry terms
and d1/d2 from the parameters alone. -/
theorem C9_no_mutation (p : Black_Scholes) :
    (carry_benefits p).map Prod.snd = (carry_benefits p).map (fun _ => p) ∧
    (d1_d2 p).map Prod.snd = (d1_d2 p).map (fun _ => p) ∧
    (call_put_options p).map Prod.snd =
      (call_put_options p).map (fun _ => p) ∧
    (equity_forward p).map Prod.snd = (equity_forward p).map (fun _ => p) ∧
    (delta p).map Prod.snd = (delta p).map (fun _ => p) ∧
    (gamma p).map Prod.snd = (gamma p).map (fun _ => p) :=
  ⟨carry_benefits_state p, d1_d2_state p, call_put_options_state p,
    equity_forward_state p, delta_state p, gamma_state p⟩

/-- C10: on valid inputs `gamma` returns a strictly positive value:
`exp(−q·T) > 0`, `φ(d1) > 0` and `So·μ·√T > 0`. -/
theorem C10_gamma_positive (p : Black_Scholes)
    (hdiv : p.div = "yes" ∨ p.div = "no") (hK : 0 < p.K) (hSo : 0 < p.So)
    (hT : 0 < p.T) (hmu : 0 < p.mu) :
    ∃ g, gamma p = .ok (g, p) ∧ 0 < g := by
  refine ⟨_, gamma_eval p hdiv hK hSo hT hmu.ne', ?_⟩
  have hs : 0 < Real.sqrt p.T := Real.sqrt_pos.2 hT
  have hb : 0 < p.So * p.mu * Real.sqrt p.T := mul_pos (mul_pos hSo hmu) hs
  exact mul_pos (div_pos (Real.exp_pos _) hb) (normalPDF_pos _)

/-! Monotonicity of the prices in the volatility (claim C8): the call and
put prices, seen as functions of `mu` with everything else fixed, are
differentiable with derivative `P · φ(d1) · √T > 0` (the vega). -/

lemma d1val_eq_dPlus (p : Black_Scholes) (hT : 0 < p.T) (hm : p.mu ≠ 0) :
    d1val p = dPlus (Real.log (p.So / p.K) + (p.r - carryRate p) * p.T)
      (Real.sqrt p.T) p.mu := by
  simp only [d1val, dPlus]
  set s := Real.sqrt p.T with hsdef
  have hs : s ≠ 0 := by
    rw [hsdef]
    exact (Real.sqrt_pos.2 hT).ne'
  have h2 : p.T = s ^ 2 := by rw [hsdef, Real.sq_sqrt hT.le]
  rw [h2]
  field_simp
  ring

lemma d2val_eq_dMinus (p : Black_Scholes) (hT : 0 < p.T) (hm : p.mu ≠ 0) :
    d2val p = dMinus (Real.log (p.So / p.K) + (p.r - carryRate p) * p.T)
      (Real.sqrt p.T) p.mu := by
  rw [d2val, d1val_eq_dPlus p hT hm]
  simp only [dPlus, dMinus]
  ring

lemma call_put_options_eq_formula (p : Black_Scholes)
    (hdiv : p.div = "yes" ∨ p.div = "no") (hK : 0 < p.K) (hSo : 0 < p.So)
    (hT : 0 < p.T) (hmu : 0 < p.mu) :
    call_put_options p = .ok
      ((callFormula (p.So * discountFactor p) (p.K * Real.exp (-p.r * p.T))
          (Real.log (p.So / p.K) + (p.r - carryRate p) * p.T)
          (Real.sqrt p.T) p.mu,
        putFormula (p.So * discountFactor p) (p.K * Real.exp (-p.r * p.T))
          (Real.log (p.So / p.K) + (p.r - carryRate p) * p.T)
          (Real.sqrt p.T) p.mu), p) := by
  rw [call_put_options_eval p hdiv hK hSo hT hmu.ne',
    d1val_eq_dPlus p hT hmu.ne', d2val_eq_dMinus p hT hmu.ne']
  simp only [callFormula, putFormula]

/-- The vega identity: since `P = Q·exp A`, the two weighted densities at
`d1` and `d2` coincide. -/
lemma weighted_pdf_eq (P Q A s m : ℝ) (hs : s ≠ 0) (hm : m ≠ 0)
    (hPQ : P = Q * Real.exp A) :
    P * normalPDF (dPlus A s m) = Q * normalPDF (dMinus A s m) := by
  have key : Real.exp A * Real.exp (-dPlus A s m ^ 2 / 2)
      = Real.exp (-dMinus A s m ^ 2 / 2) := by
    rw [← Real.exp_add]
    congr 1
    simp only [dPlus, dMinus]
    field_simp
    ring
  simp only [normalPDF]
  rw [hPQ]
  calc Q * Real.exp A * ((Real.sqrt (2 * π))⁻¹
        * Real.exp (-dPlus A s m ^ 2 / 2))
      = Q * (Real.sqrt (2 * π))⁻¹
        * (Real.exp A * Real.exp (-dPlus A s m ^ 2 / 2)) := by ring
    _ = Q * (Real.sqrt (2 * π))⁻¹ * Real.exp (-dMinus A s m ^ 2 / 2) := by
        rw [key]
    _ = Q * ((Real.sqrt (2 * π))⁻¹ * Real.exp (-dMinus A s m ^ 2 / 2)) := by
        ring

lemma hasDerivAt_dPlus (A s m : ℝ) (hms : m * s ≠ 0) :
    HasDerivAt (dPlus A s) (-(A * s) / (m * s) ^ 2 + s / 2) m := by
  have hd : HasDerivAt (fun x : ℝ => x * s) s m := by
    simpa using (hasDerivAt_id m).mul_const s
  have h1 : HasDerivAt (fun x : ℝ => A / (x * s))
      ((0 * (m * s) - A * s) / (m * s) ^ 2) m :=
    (hasDerivAt_const m A).div hd hms
  have h2 : HasDerivAt (fun x : ℝ => x * s / 2) (s / 2) m := hd.div_const 2
  have h3 := h1.add h2
  convert h3 using 1
  ring

lemma hasDerivAt_dMinus (A s m : ℝ) (hms : m * s ≠ 0) :
    HasDerivAt (dMinus A s) (-(A * s) / (m * s) ^ 2 - s / 2) m := by
  have hd : HasDerivAt (fun x : ℝ => x * s) s m := by
    simpa using (hasDerivAt_id m).mul_const s
  have h1 : HasDerivAt (fun x : ℝ => A / (x * s))
      ((0 * (m * s) - A * s) / (m * s) ^ 2) m :=
    (hasDerivAt_const m A).div hd hms
  have h2 : HasDerivAt (fun x : ℝ => x * s / 2) (s / 2) m := hd.div_const 2
  have h3 := h1.sub h2
  convert h3 using 1
  ring

lemma hasDerivAt_callFormula (P Q A s m : ℝ) (hs : 0 < s) (hm : 0 < m)
    (hPQ : P = Q * Real.exp A) :
    HasDerivAt (callFormula P Q A s)
      (P * normalPDF (dPlus A s m) * s) m := by
  have hms : m * s ≠ 0 := (mul_pos hm hs).ne'
  have hd1 := hasDerivAt_dPlus A s m hms
  have hd2 := hasDerivAt_dMinus A s m hms
  have hc1 := (hasDerivAt_normalCDF (dPlus A s m)).comp m hd1
  have hc2 := (hasDerivAt_normalCDF (dMinus A s m)).comp m hd2
  have h := (hc1.const_mul P).sub (hc2.const_mul Q)
  have hkey := weighted_pdf_eq P Q A s m hs.ne' hm.ne' hPQ
  have hval : P * normalPDF (dPlus A s m) * s
      = P * (normalPDF (dPlus A s m)
          * (-(A * s) / (m * s) ^ 2 + s / 2))
        - Q * (normalPDF (dMinus A s m)
          * (-(A * s) / (m * s) ^ 2 - s / 2)) := by
    linear_combination ((A * s) / (m * s) ^ 2 + s / 2) * hkey
  rw [hval]
  exact h

lemma hasDerivAt_putFormula (P Q A s m : ℝ) (hs : 0 < s) (hm : 0 < m)
    (hPQ : P = Q * Real.exp A) :
    HasDerivAt (putFormula P Q A s)
      (P * normalPDF (dPlus A s m) * s) m := by
  have hms : m * s ≠ 0 := (mul_pos hm hs).ne'
  have hd1 := hasDerivAt_dPlus A s m hms
  have hd2 := hasDerivAt_dMinus A s m hms
  have hc1 := (hasDerivAt_normalCDF (-dPlus A s m)).comp m hd1.neg
  have hc2 := (hasDerivAt_normalCDF (-dMinus A s m)).comp m hd2.neg
  have h := (hc2.const_mul Q).sub (hc1.const_mul P)
  have hkey := weighted_pdf_eq P Q A s m hs.ne' hm.ne' hPQ
  have hval : P * normalPDF (dPlus A s m) * s
      = Q * (normalPDF (-dMinus A s m)
          * -(-(A * s) / (m * s) ^ 2 - s / 2))
        - P * (normalPDF (-dPlus A s m)
          * -(-(A * s) / (m * s) ^ 2 + s / 2)) := by
    rw [normalPDF_even, normalPDF_even]
    linear_combination ((A * s) / (m * s) ^ 2 + s / 2) * hkey
  rw [hval]
  exact h

lemma strictMonoOn_callFormula (P Q A s : ℝ) (hs : 0 < s) (hQ : 0 < Q)
    (hPQ : P = Q * Real.exp A) :
    StrictMonoOn (callFormula P Q A s) (Ioi 0) := by
  have hP : 0 < P := by
    rw [hPQ]
    positivity
  apply strictMonoOn_of_deriv_pos (convex_Ioi 0)
  · intro x hx
    exact (hasDerivAt_callFormula P Q A s x hs (Set.mem_Ioi.mp hx)
      hPQ).continuousAt.continuousWithinAt
  · intro x hx
    rw [interior_Ioi] at hx
    rw [(hasDerivAt_callFormula P Q A s x hs (Set.mem_Ioi.mp hx) hPQ).deriv]
    exact mul_pos (mul_pos hP (normalPDF_pos _)) hs

lemma strictMonoOn_putFormula (P Q A s : ℝ) (hs : 0 < s) (hQ : 0 < Q)
    (hPQ : P = Q * Real.exp A) :
    StrictMonoOn (putFormula P Q A s) (Ioi 0) := by
  have hP : 0 < P := by
    rw [hPQ]
    positivity
  apply strictMonoOn_of_deriv_pos (convex_Ioi 0)
  · intro x hx
    exact (hasDerivAt_putFormula P Q A s x hs (Set.mem_Ioi.mp hx)
      hPQ).continuousAt.continuousWithinAt
  · intro x hx
    rw [interior_Ioi] at hx
    rw [(hasDerivAt_putFormula P Q A s x hs (Set.mem_Ioi.mp hx) hPQ).deriv]
    exact mul_pos (mul_pos hP (normalPDF_pos _)) hs

/-- With positive strike and spot, `P = Q·exp A` holds for the actual
parameters: `So·discountFactor = K·exp(−r·T)·exp(ln(So/K) + (r − carry)·T)`. -/
lemma P_eq_Q_mul_exp (p : Black_Scholes)
    (hdiv : p.div = "yes" ∨ p.div = "no") (hK : 0 < p.K) (hSo : 0 < p.So) :
    p.So * discountFactor p = p.K * Real.exp (-p.r * p.T)
      * Real.exp (Real.log (p.So / p.K) + (p.r - carryRate p) * p.T) := by
  rw [discountFactor_eq_exp p hdiv, Real.exp_add,
    Real.exp_log (div_pos hSo hK)]
  rw [show Real.exp (-carryRate p * p.T) = Real.exp (-p.r * p.T)
      * Real.exp ((p.r - carryRate p) * p.T) by
    rw [← Real.exp_add]
    congr 1
    ring]
  field_simp
  ring

/-- C8: increasing the volatility, all other parameters held fixed (with
positive strike, spot and term and a recognized flag), strictly increases
both the call and the put price returned by `call_put_options`. -/
theorem C8_vol_monotonicity (K T So r q : ℝ) (div : String)
    (hdiv : div = "yes" ∨ div = "no") (hK : 0 < K) (hSo : 0 < So)
    (hT : 0 < T) (mu1 mu2 : ℝ) (hmu1 : 0 < mu1) (h12 : mu1 < mu2) :
    ∃ c1 pt1 c2 pt2,
      call_put_options ⟨K, T, So, r, q, mu1, div⟩ =
        .ok ((c1, pt1), ⟨K, T, So, r, q, mu1, div⟩) ∧
      call_put_options ⟨K, T, So, r, q, mu2, div⟩ =
        .ok ((c2, pt2), ⟨K, T, So, r, q, mu2, div⟩) ∧
      c1 < c2 ∧ pt1 < pt2 := by
  have hmu2 : 0 < mu2 := hmu1.trans h12
  have hf1 := call_put_options_eq_formula ⟨K, T, So, r, q, mu1, div⟩ hdiv
    hK hSo hT hmu1
  have hf2 := call_put_options_eq_formula ⟨K, T, So, r, q, mu2, div⟩ hdiv
    hK hSo hT hmu2
  have hs : (0 : ℝ) < Real.sqrt T := Real.sqrt_pos.2 hT
  have hQ : (0 : ℝ) < K * Real.exp (-r * T) :=
    mul_pos hK (Real.exp_pos _)
  have hPQ := P_eq_Q_mul_exp ⟨K, T, So, r, q, mu1, div⟩ hdiv hK hSo
  refine ⟨_, _, _, _, hf1, hf2, ?_, ?_⟩
  · exact strictMonoOn_callFormula _ _ _ _ hs hQ hPQ
      (Set.mem_Ioi.mpr hmu1) (Set.mem_Ioi.mpr hmu2) h12
  · exact strictMonoOn_putFormula _ _ _ _ hs hQ hPQ
      (Set.mem_Ioi.mpr hmu1) (Set.mem_Ioi.mpr hmu2) h12

/-- C8 witness: at K = 1, T = 1 year, So = 1, r = 0, q = 0, flag "no", the
prices at volatility 2 strictly exceed those at volatility 1. -/
theorem C8_vol_monotonicity_witness :
    ∃ c1 pt1 c2 pt2,
      call_put_options ⟨1, 1, 1, 0, 0, 1, "no"⟩ =
        .ok ((c1, pt1), ⟨1, 1, 1, 0, 0, 1, "no"⟩) ∧
      call_put_options ⟨1, 1, 1, 0, 0, 2, "no"⟩ =
        .ok ((c2, pt2), ⟨1, 1, 1, 0, 0, 2, "no"⟩) ∧
      c1 < c2 ∧ pt1 < pt2 :=
  C8_vol_monotonicity 1 1 1 0 0 "no" (Or.inr rfl) (by norm_num)
    (by norm_num) (by norm_num) 1 2 (by norm_num) (by norm_num)

/-- C10 witness at K = 1, T = 1 year, So = 1, r = 0, q = 0, mu = 1, "no". -/
theorem C10_gamma_positive_witness :
    ∃ g, gamma ⟨1, 1, 1, 0, 0, 1, "no"⟩ =
      .ok (g, ⟨1, 1, 1, 0, 0, 1, "no"⟩) ∧ 0 < g :=
  C10_gamma_positive ⟨1, 1, 1, 0, 0, 1, "no"⟩ (Or.inr rfl) (by norm_num)
    (by norm_num) (by norm_num) (by norm_num)

end Black_Scholes

end BlackScholesModel

end
